import Mathlib

/-!
Verification development for the Modrinth collection downloader
(`modrinth_collection_downloader.py`).

The Python source is shallowly embedded below: pure helpers become Lean
functions, the network is an explicit environment (a finite table of
project metadata and of operator prompt answers), the per-category JSON
index files become association lists (Python dicts preserve insertion
order; assignment to an existing key updates in place, new keys append),
and code that can raise an uncaught exception is modelled by a `crashed`
outcome carrying the Python exception class name.
-/

namespace MCD

/-! ### Version tuples and Python tuple comparison

`parse_version` produces Python tuples of ints; the code compares them
with `<=` and `<`, i.e. lexicographic comparison where a strict prefix
is smaller.  We model tuples as `List Nat`.
-/

/-- Python `a < b` on int tuples (lexicographic, prefix is smaller). -/
def tupLt : List Nat → List Nat → Bool
  | [], [] => false
  | [], _ :: _ => true
  | _ :: _, [] => false
  | a :: as_, b :: bs => if a < b then true else if b < a then false else tupLt as_ bs

/-- Python `a <= b` on int tuples. -/
def tupLe : List Nat → List Nat → Bool
  | [], _ => true
  | _ :: _, [] => false
  | a :: as_, b :: bs => if a < b then true else if b < a then false else tupLe as_ bs

/-! ### `parse_version`

Python: `tuple(int(part) for part in v.split(".") if part.isdigit())`.
We split the character list on `'.'` (like `str.split`, keeping empty
segments) and keep only nonempty all-digit segments (`str.isdigit` is
false on the empty string).
-/

/-- `str.split(".")` on the underlying character list. -/
def splitDots : List Char → List (List Char)
  | [] => [[]]
  | c :: cs =>
    let r := splitDots cs
    if c = '.' then [] :: r
    else
      match r with
      | [] => [[c]]
      | seg :: rest => (c :: seg) :: rest

/-- Python `part.isdigit()` (ASCII): nonempty and all characters digits. -/
def isDigitSeg (seg : List Char) : Bool :=
  !seg.isEmpty && seg.all Char.isDigit

/-- `int(part)` for an all-digit segment. -/
def segToNat (seg : List Char) : Nat :=
  seg.foldl (fun n c => n * 10 + (c.toNat - '0'.toNat)) 0

/-- `parse_version(v)`: the tuple of the purely numeric dot-separated segments. -/
def parse_version (v : String) : List Nat :=
  ((splitDots v.data).filter isDigitSeg).map segToNat

/-! ### Remote data model

The fields of the JSON objects that the code reads.  `MFile` is a
version's file entry; `Dependency` a dependency reference.
-/

/-- A file entry of a version: `{filename, url, primary}`. -/
structure MFile where
  filename : String
  url : String
  primary : Bool
deriving DecidableEq

/-- A dependency reference: `{project_id, dependency_type}`. -/
structure Dependency where
  project_id : String
  dependency_type : String
deriving DecidableEq

/-- A version object: `{game_versions, loaders, files, dependencies}`. -/
structure Version where
  game_versions : List String
  loaders : List String
  files : List MFile
  dependencies : List Dependency
deriving DecidableEq

/-- Project details as read from `GET /project/{id}`: `{title, project_type}`
(either key may be missing). -/
structure ProjDetails where
  title : Option String
  project_type : Option String
deriving DecidableEq

/-! ### Version compatibility resolver -/

/-- Python `max(list_of_tuples, default=None)`: first maximal element,
`none` on the empty list. -/
def pymaxTup : List (List Nat) → Option (List Nat)
  | [] => none
  | x :: xs => some (xs.foldl (fun b y => if tupLt b y then y else b) x)

/-- `gv(v, target_version)`: the highest parsed game version of `v` that
does not exceed the target, `none` if there is no such entry. -/
def gv (v : Version) (target : List Nat) : Option (List Nat) :=
  pymaxTup ((v.game_versions.map parse_version).filter (fun t => tupLe t target))

/-- Comparison of `gv` keys as used by `max(..., key=lambda v: gv(v, t))`.
On the code's paths both keys are always `some` (their lists are filtered
for that); Python would raise comparing `None` with a tuple, so the
`none` rows below are never exercised. -/
def gvKeyLt (a b : Option (List Nat)) : Bool :=
  match a, b with
  | none, none => false
  | none, some _ => true
  | some _, none => false
  | some x, some y => tupLt x y

/-- `optLe a b`: key `a` does not exceed key `b` (used only to state
maximality of the selected version). -/
def optLe (a b : Option (List Nat)) : Bool :=
  match a, b with
  | none, _ => true
  | some _, none => false
  | some x, some y => tupLe x y

/-- Python `max(l, key=k)`: first element with maximal key, `none` on `[]`
(Python raises there; the code only calls it on nonempty lists). -/
def pymaxBy (k : Version → Option (List Nat)) : List Version → Option Version
  | [] => none
  | x :: xs => some (xs.foldl (fun b y => if gvKeyLt (k b) (k y) then y else b) x)

/-- `is_compatible(v, loader, fallback, target, project_type)`. -/
def is_compatible (v : Version) (loader : Option String) (fallback target : List Nat)
    (project_type : Option String) : Bool :=
  let game_versions := v.game_versions.map parse_version
  let version_ok := game_versions.any (fun g => tupLe fallback g && tupLe g target)
  let loaders := v.loaders
  let loader_ok :=
    (!(project_type == some "mod")) || loader.isNone ||
    (match loader with
     | some l => loaders.contains l
     | none => false) ||
    (["minecraft", "datapack"].any (fun l => loaders.contains l))
  version_ok && loader_ok

/-- `get_latest_version`.  The network fetch
`modrinth.get_mod_version(mod_id)` is passed in as `versions`
(`none` = fetch failed).  Returns the `(version, success)` pair. -/
def get_latest_version (versions : Option (List Version)) (target : List Nat)
    (loader : Option String) (fallback_bound : List Nat)
    (project_type : Option String) : Option Version × Bool :=
  match versions with
  | none => (none, false)
  | some vs =>
    if vs.isEmpty then (none, false)
    else
      let compatible := vs.filter (fun v => is_compatible v loader fallback_bound target project_type)
      if compatible.isEmpty then
        let valid := vs.filter (fun v => (gv v target).isSome)
        if valid.isEmpty then (none, false)
        else (pymaxBy (fun v => gv v target) valid, false)
      else
        match compatible.find? (fun v => (v.game_versions.map parse_version).contains target) with
        | some exact => (some exact, true)
        | none => (pymaxBy (fun v => gv v target) compatible, true)

/-! ### Resilient API client (`ModrinthClient._request_with_retries`)

Sleeps and pacing delays are irrelevant to the claims and are dropped;
what is modelled is the control flow of the retry loop: which attempt
outcomes retry, which abort, how many attempts are made, and what is
returned.  The outcome of each attempt is an oracle indexed by the
attempt number.
-/

/-- `MAX_RETRIES = 5`. -/
def MAX_RETRIES : Nat := 5

/-- Outcome of one attempt of the request loop:
success, an HTTP error with a status code, or a transport-layer error
(`URLError`, including client timeouts). -/
inductive AttemptOutcome where
  | ok
  | http (code : Nat)
  | net
deriving DecidableEq

/-- Result of `_request_with_retries`: the returned value (`none` is
Python `None`; for GET success the parsed JSON is abstracted to `some 1`),
the number of attempts actually made, and whether the terminal
failure message was printed. -/
structure ReqRes where
  result : Option Nat
  attempts : Nat
  failLogged : Bool
deriving DecidableEq

/-- The retry loop body.  `isDownload` distinguishes the DOWNLOAD action
(whose success path is a bare `return`, i.e. Python `None`) from GET
(which returns the parsed response).  On HTTP 429 and 408 and on
transport errors the loop retries; on any other HTTP error it `break`s;
leaving the loop prints the terminal failure message and returns `None`. -/
def reqGo (oracle : Nat → AttemptOutcome) (isDownload : Bool) :
    Nat → Nat → Nat → ReqRes
  | _, 0, made => ⟨none, made, true⟩
  | attempt, r + 1, made =>
    match oracle attempt with
    | AttemptOutcome.ok => ⟨if isDownload then none else some 1, made + 1, false⟩
    | AttemptOutcome.http c =>
      if c = 429 || c = 408 then reqGo oracle isDownload (attempt + 1) r (made + 1)
      else ⟨none, made + 1, true⟩
    | AttemptOutcome.net => reqGo oracle isDownload (attempt + 1) r (made + 1)

/-- `_request_with_retries(url, action, dest)` driven by an attempt oracle. -/
def request_with_retries (oracle : Nat → AttemptOutcome) (isDownload : Bool) : ReqRes :=
  reqGo oracle isDownload 0 MAX_RETRIES 0

/-- `ModrinthClient.download_file(url, filename)`: calls
`_request_with_retries(..., action="DOWNLOAD", ...)` and does not return
its value, so the caller always receives Python `None`. -/
def download_file (oracle : Nat → AttemptOutcome) : Option Nat :=
  let _ := request_with_retries oracle true
  none

/-- An attempt outcome the retry loop retries on: HTTP 429, HTTP 408, or
a transport error. -/
def retryable : AttemptOutcome → Bool
  | AttemptOutcome.ok => false
  | AttemptOutcome.http c => c = 429 || c = 408
  | AttemptOutcome.net => true

/-! ### Local index store

A per-category index is a JSON object mapping installed filename to
project id.  Python dicts preserve insertion order, assignment to an
existing key updates the value in place, and new keys are appended, so
an index is an association list with unique keys.  The collection of
on-disk index files is itself an association list keyed by the index
file name (a missing file loads as the empty mapping, as in
`load_index`).
-/

/-- One category's index: ordered `filename → project_id` entries. -/
abbrev Index := List (String × String)

/-- All on-disk index files, keyed by index file name. -/
abbrev Stores := List (String × Index)

/-- `INDEX_FILES` dict: maps a project type to its index file name. -/
def INDEX_FILES : String → Option String
  | "mod" => some "mods_index.json"
  | "datapack" => some "datapacks_index.json"
  | "resourcepack" => some "resourcepacks_index.json"
  | "shaderpack" => some "shaderpacks_index.json"
  | "shader" => some "shaderpacks_index.json"
  | _ => none

/-- `index.get(filename)`. -/
def idxGet (idx : Index) (k : String) : Option String :=
  (idx.find? (fun p => p.1 = k)).map (·.2)

/-- `index.pop(k, None)`: drop the entry with key `k`. -/
def idxPop (idx : Index) (k : String) : Index :=
  idx.filter (fun p => ¬ p.1 = k)

/-- `index[k] = v`: update in place when the key exists, else append. -/
def idxSet (idx : Index) (k v : String) : Index :=
  if (idx.find? (fun p => p.1 = k)).isSome then
    idx.map (fun p => if p.1 = k then (k, v) else p)
  else idx ++ [(k, v)]

/-- `load_index` after the `INDEX_FILES` lookup succeeded: read the file,
an absent file is the empty mapping. -/
def loadStore (st : Stores) (file : String) : Index :=
  ((st.find? (fun e => e.1 = file)).map (·.2)).getD []

/-- `save_index`: rewrite the whole index file. -/
def storeSet (st : Stores) (file : String) (idx : Index) : Stores :=
  if (st.find? (fun e => e.1 = file)).isSome then
    st.map (fun e => if e.1 = file then (file, idx) else e)
  else st ++ [(file, idx)]

/-- `normalize_filename`: `re.sub(r"[^\w\-+.]", "_", name)` (ASCII `\w`). -/
def normalize_filename (name : String) : String :=
  String.mk (name.data.map (fun c =>
    if c.isAlphanum || c = '_' || c = '-' || c = '+' || c = '.' then c else '_'))

/-- `resolve_target_directory`: `os.path.join(os.getcwd(), p_type + "s")`,
with "shader" redirected to "shaderpack".  Paths are modelled relative to
the working directory; the result is a nonempty string for every input
string (so the caller's `if not target_dir` guard can never fire). -/
def resolve_target_directory (project_type : String) : String :=
  (if project_type = "shader" then "shaderpack" else project_type) ++ "s"

/-! ### Environment: the remote service and the operator

`download_project`'s network fetches and its interactive prompt are
modelled by a finite table: per project id, the result of
`get_mod_details` (`none` = fetch failed), the result of
`get_mod_version` (`none` = fetch failed), and the operator's answer to
the fallback prompt (`true` = typed `y`).
-/

/-- Remote/operator data for one project id. -/
structure ProjEntry where
  id : String
  details : Option ProjDetails
  versions : Option (List Version)
  prompt : Bool
deriving DecidableEq

/-- The environment: a finite table of project entries.  Ids absent from
the table behave like failed fetches. -/
structure Env where
  table : List ProjEntry
deriving DecidableEq

/-- `modrinth.get_mod_details(mod_id)`. -/
def envDetails (env : Env) (mod_id : String) : Option ProjDetails :=
  match env.table.find? (fun e => e.id = mod_id) with
  | none => none
  | some e => e.details

/-- `modrinth.get_mod_version(mod_id)`. -/
def envVersions (env : Env) (mod_id : String) : Option (List Version) :=
  match env.table.find? (fun e => e.id = mod_id) with
  | none => none
  | some e => e.versions

/-- The operator's answer to `should_use_fallback` for this project. -/
def envPrompt (env : Env) (mod_id : String) : Bool :=
  match env.table.find? (fun e => e.id = mod_id) with
  | none => false
  | some e => e.prompt

/-- The run-wide CLI configuration (`args`). -/
structure Args where
  version : List Nat
  loader : Option String
  fallback_bound : List Nat
deriving DecidableEq

/-! ### `download_project` (single project, after the seen-set guard)

`stepBody` is the body of `download_project` from the
`get_mod_details` call to the `save_index` call, as a pure function of
the environment and the index stores.  Effects are returned explicitly:
the new stores, the filenames passed to `download_file`, the old files
removed, the directories created by `os.makedirs`, the `log_event`
calls, and the dependency list of the downloaded version (the recursion
input).  An uncaught Python exception is the `crashed` outcome.
-/

/-- How one `download_project` invocation ended. -/
inductive Outcome where
  | noVersion
  | noPrimary
  | typeSkip
  | declined
  | skipped
  | downloaded
  | updated
  | crashed (msg : String)
deriving DecidableEq

/-- Explicit effects of one `download_project` body. -/
structure StepRes where
  outcome : Outcome
  stores : Stores
  downloaded : List String
  removed : List String
  dirs : List String
  logs : List (String × String)
  deps : List Dependency
deriving DecidableEq

/-- A crashing step: exception raised before any directory was created. -/
def mkCrash (st : Stores) (msg : String) : StepRes :=
  ⟨Outcome.crashed msg, st, [], [], [], [], []⟩

/-- A crashing step after `os.makedirs` already ran. -/
def mkCrashDirs (st : Stores) (dirs : List String) (msg : String) : StepRes :=
  ⟨Outcome.crashed msg, st, [], [], dirs, [], []⟩

/-- The tail of `download_project` from the already-exists check on:
download, old-file removal, and the locked reload / pop / insert / save
of the index. -/
def stepFinish (mod_id : String) (st : Stores) (dirs : List String) (idxfile : String)
    (existing_id : Option String) (old_filename : Option String)
    (filename : String) (v : Version) : StepRes :=
  if existing_id = some mod_id then
    ⟨Outcome.skipped, st, [], [], dirs, [("skipped", mod_id)], []⟩
  else
    let index2 := loadStore st idxfile
    let index3 := match old_filename with
      | some o => idxPop index2 o
      | none => index2
    let index4 := idxSet index3 filename mod_id
    let st2 := storeSet st idxfile index4
    ⟨if old_filename.isSome then Outcome.updated else Outcome.downloaded,
     st2, [filename],
     (match old_filename with | some o => [o] | none => []),
     dirs,
     [((if old_filename.isSome then "updated" else "downloaded"), mod_id)],
     v.dependencies⟩

/-- The body of `download_project` after the seen-set guard. -/
def stepBody (env : Env) (args : Args) (mod_id : String) (st : Stores) : StepRes :=
  match envDetails env mod_id with
  | none =>
    -- `project_type = mod_details.get("project_type")` with `mod_details = None`
    mkCrash st "AttributeError"
  | some details =>
    let project_type0 := details.project_type
    let res := get_latest_version (envVersions env mod_id) args.version args.loader
        args.fallback_bound project_type0
    let version? := res.1
    let success := res.2
    let project_type1 := match version? with
      | some v => if v.loaders.contains "datapack" then some "datapack" else project_type0
      | none => project_type0
    if success = false then
      match version? with
      | none =>
        -- `versions = version.get("game_versions", [])` with `version = None`
        mkCrash st "AttributeError"
      | some _ =>
        ⟨Outcome.noVersion, st, [], [], [], [("no_version", mod_id)], []⟩
    else
      match version? with
      | none =>
        -- unreachable: `success` is only `True` with a version present
        mkCrash st "AttributeError"
      | some v =>
        match v.files.find? (fun f => f.primary) with
        | none => ⟨Outcome.noPrimary, st, [], [], [], [], []⟩
        | some file =>
          let filename := normalize_filename file.filename
          match project_type1 with
          | none =>
            -- `resolve_target_directory(None)`: `None + "s"` raises
            mkCrash st "TypeError"
          | some ptype =>
            let target_dir := resolve_target_directory ptype
            if target_dir = "" then
              -- dead guard: `resolve_target_directory` never returns a falsy value
              ⟨Outcome.typeSkip, st, [], [], [], [], []⟩
            else
              -- `os.makedirs(target_dir, exist_ok=True)`
              let dirs := [target_dir]
              let game_versions := v.game_versions.map parse_version
              match INDEX_FILES ptype with
              | none =>
                -- `load_index` raises on an unknown index type
                mkCrashDirs st dirs "ValueError"
              | some idxfile =>
                let index := loadStore st idxfile
                let existing_id := idxGet index filename
                let old_filename :=
                  (index.find? (fun p => p.2 = mod_id && ¬ p.1 = filename)).map (·.1)
                if !(game_versions.contains args.version) && !(existing_id = some mod_id) then
                  if envPrompt env mod_id then
                    stepFinish mod_id st dirs idxfile existing_id old_filename filename v
                  else
                    if game_versions.isEmpty then
                      -- `max(game_versions)` on an empty list raises
                      mkCrashDirs st dirs "ValueError"
                    else
                      ⟨Outcome.declined, st, [], [], dirs, [("no_version", mod_id)], []⟩
                else
                  stepFinish mod_id st dirs idxfile existing_id old_filename filename v

/-! ### The recursive walk and the run

`download_project` recurses into required dependencies after a
successful download.  The shared mutable state of a run is the seen-set,
the index stores, and (for observation) the list of project ids for
which a file download was issued, the accumulated `log_event` calls, a
pending uncaught exception (Python exception propagation: once raised it
aborts the remaining dependency loop iterations of every ancestor), and
a fuel-exhaustion marker.  Fuel is a modelling artifact only: it is
consumed solely when a not-yet-seen project is actually processed, and
the termination theorem shows that fuel exceeding the number of unseen
table ids is never exhausted.
-/

/-- Shared run state. -/
structure RunSt where
  seen : List String
  stores : Stores
  downloads : List String
  logs : List (String × String)
  exn : Option String
  fuelOut : Bool
deriving DecidableEq

/-- Sequential left-to-right processing of a list against the run state. -/
def runList {α : Type} (f : α → RunSt → RunSt) : List α → RunSt → RunSt
  | [], st => st
  | a :: l, st => runList f l (f a st)

/-- The body of `download_project` once past the seen-set guard:
mark seen, run `stepBody`, then recurse into the required dependencies
(each dependency call re-checks the pending exception and the seen-set
first, exactly like a fresh `download_project` invocation). -/
def downloadBody (env : Env) (args : Args) : Nat → String → RunSt → RunSt :=
  fun fuel => Nat.rec
    (motive := fun _ => String → RunSt → RunSt)
    (fun _ st => { st with fuelOut := true })
    (fun _ ih mod_id st =>
      let st1 := { st with seen := mod_id :: st.seen }
      let r := stepBody env args mod_id st1.stores
      match r.outcome with
      | Outcome.crashed m =>
        { st1 with stores := r.stores, logs := st1.logs ++ r.logs, exn := some m }
      | _ =>
        let st2 := { st1 with
          stores := r.stores
          logs := st1.logs ++ r.logs
          downloads := if r.downloaded.isEmpty then st1.downloads
                       else st1.downloads ++ [mod_id] }
        runList (fun dep acc =>
            if acc.exn.isSome then acc
            else if acc.seen.contains dep.project_id then acc
            else ih dep.project_id acc)
          (r.deps.filter (fun d => d.dependency_type = "required")) st2)
    fuel

/-- One `download_project(mod_id, args, seen_mods, file_lock)` call. -/
def downloadRec (env : Env) (args : Args) (fuel : Nat) (mod_id : String) (st : RunSt) : RunSt :=
  if st.exn.isSome then st
  else if st.seen.contains mod_id then st
  else downloadBody env args fuel mod_id st

/-- Fuel that the termination theorem shows is always sufficient. -/
def FUEL (env : Env) : Nat := env.table.length + 1

/-- The orchestration over the collection's top-level project list: each
worker task gets its own exception boundary (an exception in one task is
swallowed by `executor.map` and does not abort its siblings), while the
seen-set and the stores are shared. -/
def runAll (env : Env) (args : Args) (mods : List String) (st : RunSt) : RunSt :=
  runList (fun mod_id acc => downloadRec env args (FUEL env) mod_id { acc with exn := none })
    mods st

/-- Number of table ids not yet in the seen-set (the termination measure). -/
def measureRem (env : Env) (seen : List String) : Nat :=
  (((env.table.map (fun e => e.id)).dedup).filter (fun i => ¬ seen.contains i)).length

/-- The initial run state. -/
def initSt (st : Stores) : RunSt := ⟨[], st, [], [], none, false⟩

/-! ### Invariants and run predicates -/

/-- A well-formed index in the dict model: keys (filenames) are unique —
automatic for a Python dict — and values (project ids) are unique, which
is exactly the spec's invariant that at most one filename maps to a
given project id. -/
def GoodIndex (idx : Index) : Prop :=
  (idx.map Prod.fst).Nodup ∧ (idx.map Prod.snd).Nodup

/-- Every persisted index file satisfies `GoodIndex`. -/
def GoodStores (st : Stores) : Prop := ∀ e ∈ st, GoodIndex e.2

/-- Dedup invariant of a run: no project id was downloaded twice, and
every downloaded id is in the seen-set. -/
def DlInv (s : RunSt) : Prop :=
  s.downloads.Nodup ∧ ∀ d ∈ s.downloads, d ∈ s.seen

/-- The local state of `mod_id` is already current: its metadata and
version resolve successfully, and the index of its category already maps
its candidate filename to this very project id (the state a completed
first run leaves behind, given unchanged remote data). -/
def AlreadyCurrent (env : Env) (args : Args) (st : Stores) (mod_id : String) : Prop :=
  ∃ d v file ptype idxfile,
    envDetails env mod_id = some d ∧
    get_latest_version (envVersions env mod_id) args.version args.loader
      args.fallback_bound d.project_type = (some v, true) ∧
    v.files.find? (fun f => f.primary) = some file ∧
    (if v.loaders.contains "datapack" then some "datapack" else d.project_type) = some ptype ∧
    INDEX_FILES ptype = some idxfile ∧
    idxGet (loadStore st idxfile) (normalize_filename file.filename) = some mod_id

/-! ### Concrete scenarios used by counterexample / failing-input theorems -/

/-- A version exactly matching target 1.21.8 for loader fabric, with two
required dependencies X and Y. -/
def verParent : Version :=
  ⟨["1.21.8"], ["fabric"], [⟨"p.jar", "u", true⟩],
   [⟨"X", "required"⟩, ⟨"Y", "required"⟩]⟩

/-- A dependency version exactly matching the target, no dependencies. -/
def verSibling : Version := ⟨["1.21.8"], ["fabric"], [⟨"y.jar", "u", true⟩], []⟩

/-- The standard run configuration: target 1.21.8, loader fabric,
fallback floor 1.21.4 (the values wired into the script). -/
def argsStd : Args := ⟨[1, 21, 8], some "fabric", [1, 21, 4]⟩

/-- Environment for the empty-version-list scenario: project P downloads
fine and requires X (whose version fetch yields an empty list) and then
Y (a healthy sibling dependency). -/
def envNoVersion : Env := ⟨[
  ⟨"P", some ⟨none, some "mod"⟩, some [verParent], false⟩,
  ⟨"X", some ⟨none, some "mod"⟩, some [], false⟩,
  ⟨"Y", some ⟨none, some "mod"⟩, some [verSibling], false⟩]⟩

/-- Environment for the unrecognized-project-type scenario: project Q's
type is "plugin", which is not a key of `INDEX_FILES`. -/
def envPlugin : Env := ⟨[
  ⟨"Q", some ⟨none, some "plugin"⟩,
    some [⟨["1.21.8"], ["fabric"], [⟨"q.jar", "u", true⟩], []⟩], false⟩]⟩

/-- A version supporting only 1.21.7: compatible with the window
[1.21.4, 1.21.8] but not an exact match for 1.21.8. -/
def verFallback : Version := ⟨["1.21.7"], ["fabric"], [⟨"f.jar", "u", true⟩], []⟩

/-- Environment for the declined-fallback scenario: project F resolves to
`verFallback` and the operator answers no. -/
def envFallback : Env := ⟨[⟨"F", some ⟨none, some "mod"⟩, some [verFallback], false⟩]⟩

/-- A version exactly matching the target, used for the idempotence witness. -/
def verCurrent : Version := ⟨["1.21.8"], ["fabric"], [⟨"w.jar", "u", true⟩], []⟩

/-- Environment for the second-run scenario: project W resolves to
`verCurrent`, whose file the index below already records. -/
def envCurrent : Env := ⟨[⟨"W", some ⟨none, some "mod"⟩, some [verCurrent], false⟩]⟩

/-- Index stores left behind by a completed first run over `envCurrent`. -/
def storesCurrent : Stores := [("mods_index.json", [("w.jar", "W")])]

/-- Mutually dependent versions: A requires B and B requires A. -/
def verA : Version := ⟨["1.21.8"], ["fabric"], [⟨"a.jar", "u", true⟩], [⟨"B", "required"⟩]⟩

/-- See `verA`. -/
def verB : Version := ⟨["1.21.8"], ["fabric"], [⟨"b.jar", "u", true⟩], [⟨"A", "required"⟩]⟩

/-- Environment with a dependency cycle between A and B. -/
def envCycle : Env := ⟨[
  ⟨"A", some ⟨none, some "mod"⟩, some [verA], false⟩,
  ⟨"B", some ⟨none, some "mod"⟩, some [verB], false⟩]⟩

/-! ## Theorems -/

/-! ### Order lemmas for Python tuple comparison -/

theorem tupLe_refl : ∀ a, tupLe a a = true := by
  intro a
  induction a with
  | nil => rfl
  | cons x xs ih => simp [tupLe, ih]

theorem tupLe_total : ∀ a b, tupLe a b = true ∨ tupLe b a = true := by
  intro a
  induction a with
  | nil => intro b; left; rfl
  | cons x xs ih =>
    intro b
    cases b with
    | nil => right; rfl
    | cons y ys =>
      by_cases hxy : x < y
      · left; simp [tupLe, hxy]
      · by_cases hyx : y < x
        · right; simp [tupLe, hyx, Nat.lt_asymm hyx]
        · have hx : x = y := Nat.le_antisymm (Nat.le_of_not_lt hyx) (Nat.le_of_not_lt hxy)
          subst hx
          rcases ih ys with h | h
          · left; simp [tupLe, h]
          · right; simp [tupLe, h]

theorem tupLt_eq_not_tupLe : ∀ a b, tupLt a b = !tupLe b a := by
  intro a
  induction a with
  | nil =>
    intro b
    cases b with
    | nil => rfl
    | cons y ys => rfl
  | cons x xs ih =>
    intro b
    cases b with
    | nil => rfl
    | cons y ys =>
      by_cases hxy : x < y
      · simp [tupLt, tupLe, hxy, Nat.lt_asymm hxy]
      · by_cases hyx : y < x
        · simp [tupLt, tupLe, hxy, hyx]
        · have hx : x = y := Nat.le_antisymm (Nat.le_of_not_lt hyx) (Nat.le_of_not_lt hxy)
          subst hx
          simp [tupLt, tupLe, ih ys]

theorem tupLe_trans :
    ∀ a b c, tupLe a b = true → tupLe b c = true → tupLe a c = true := by
  intro a
  induction a with
  | nil => intro b c _ _; rfl
  | cons x xs ih =>
    intro b c hab hbc
    cases b with
    | nil => simp [tupLe] at hab
    | cons y ys =>
      cases c with
      | nil => simp [tupLe] at hbc
      | cons z zs =>
        simp only [tupLe] at hab hbc ⊢
        rcases Nat.lt_trichotomy x y with hxy | hxy | hxy
        · rcases Nat.lt_trichotomy y z with hyz | hyz | hyz
          · simp [Nat.lt_trans hxy hyz]
          · subst hyz; simp [hxy]
          · -- y > z: hbc forces a contradiction unless branches align
            simp [hyz, Nat.lt_asymm hyz] at hbc
        · subst hxy
          rcases Nat.lt_trichotomy x z with hyz | hyz | hyz
          · simp [hyz]
          · subst hyz
            simp [Nat.lt_irrefl] at hab hbc ⊢
            exact ih _ _ hab hbc
          · simp [hyz, Nat.lt_asymm hyz] at hbc
        · simp [hxy, Nat.lt_asymm hxy] at hab

theorem tupLt_irrefl (a : List Nat) : tupLt a a = false := by
  simp [tupLt_eq_not_tupLe, tupLe_refl]

theorem tupLe_of_not_tupLt {a b : List Nat} (h : tupLt a b = false) : tupLe b a = true := by
  simpa [tupLt_eq_not_tupLe] using h

theorem tupLt_of_tupLt_of_tupLe {a b c : List Nat}
    (h1 : tupLt a b = true) (h2 : tupLe b c = true) : tupLt a c = true := by
  rw [tupLt_eq_not_tupLe] at h1 ⊢
  simp only [Bool.not_eq_true'] at h1 ⊢
  by_contra hca
  simp only [Bool.not_eq_false] at hca
  rw [tupLe_trans _ _ _ h2 hca] at h1
  exact Bool.noConfusion h1

theorem tupLe_nil_left (t : List Nat) : tupLe [] t = true := rfl

theorem tupLe_nil_right {fb : List Nat} (h : fb ≠ []) : tupLe fb [] = false := by
  cases fb with
  | nil => exact absurd rfl h
  | cons x xs => rfl

/-! ### Lemmas about the key order and Python `max(..., key=...)` -/

theorem gvKeyLt_irrefl (a : Option (List Nat)) : gvKeyLt a a = false := by
  cases a with
  | none => rfl
  | some x => simp [gvKeyLt, tupLt_irrefl]

theorem gvKeyLt_of_lt_of_not_lt {r y x : Option (List Nat)}
    (h1 : gvKeyLt r y = true) (h2 : gvKeyLt x y = false) : gvKeyLt r x = true := by
  cases r with
  | none =>
    cases y with
    | none => simp [gvKeyLt] at h1
    | some yy =>
      cases x with
      | none => simp [gvKeyLt] at h2
      | some xx => rfl
  | some rr =>
    cases y with
    | none => simp [gvKeyLt] at h1
    | some yy =>
      cases x with
      | none => simp [gvKeyLt] at h2
      | some xx =>
        simp only [gvKeyLt] at h1 h2 ⊢
        exact tupLt_of_tupLt_of_tupLe h1 (tupLe_of_not_tupLt h2)

theorem tupLe_of_tupLt {a b : List Nat} (h : tupLt a b = true) : tupLe a b = true := by
  rcases tupLe_total a b with h' | h'
  · exact h'
  · rw [tupLt_eq_not_tupLe, h', Bool.not_true] at h
    exact Bool.noConfusion h

theorem tupLt_trans {a b c : List Nat}
    (h1 : tupLt a b = true) (h2 : tupLt b c = true) : tupLt a c = true :=
  tupLt_of_tupLt_of_tupLe h1 (tupLe_of_tupLt h2)

theorem gvKeyLt_trans {a b c : Option (List Nat)}
    (h1 : gvKeyLt a b = true) (h2 : gvKeyLt b c = true) : gvKeyLt a c = true := by
  cases a with
  | none =>
    cases b with
    | none => simp [gvKeyLt] at h1
    | some bb =>
      cases c with
      | none => simp [gvKeyLt] at h2
      | some cc => rfl
  | some aa =>
    cases b with
    | none => simp [gvKeyLt] at h1
    | some bb =>
      cases c with
      | none => simp [gvKeyLt] at h2
      | some cc =>
        simp only [gvKeyLt] at h1 h2 ⊢
        exact tupLt_trans h1 h2

theorem optLe_of_not_gvKeyLt {a b : Option (List Nat)}
    (h : gvKeyLt b a = false) : optLe a b = true := by
  cases a with
  | none => cases b <;> rfl
  | some aa =>
    cases b with
    | none => simp [gvKeyLt] at h
    | some bb =>
      simp only [gvKeyLt] at h
      simp only [optLe]
      exact tupLe_of_not_tupLt h

/-- The fold of Python `max(l, key=k)` stays inside the candidates. -/
theorem foldl_max_mem (k : Version → Option (List Nat)) :
    ∀ (xs : List Version) (x : Version),
      (xs.foldl (fun b y => if gvKeyLt (k b) (k y) then y else b) x) ∈ x :: xs := by
  intro xs
  induction xs with
  | nil => intro x; simp
  | cons y ys ih =>
    intro x
    simp only [List.foldl_cons]
    rcases List.mem_cons.mp (ih (if gvKeyLt (k x) (k y) then y else x)) with h1 | h1
    · rw [h1]
      by_cases hxy : gvKeyLt (k x) (k y) = true
      · simp [hxy]
      · simp only [Bool.not_eq_true] at hxy
        simp [hxy]
    · simp [h1]

/-- The fold of Python `max(l, key=k)` is never strictly beaten by a candidate. -/
theorem foldl_max_not_lt (k : Version → Option (List Nat)) :
    ∀ (xs : List Version) (x z : Version), z ∈ x :: xs →
      gvKeyLt (k (xs.foldl (fun b y => if gvKeyLt (k b) (k y) then y else b) x)) (k z) = false := by
  intro xs
  induction xs with
  | nil =>
    intro x z hz
    simp at hz
    subst hz
    simp [gvKeyLt_irrefl]
  | cons y ys ih =>
    intro x z hz
    simp only [List.foldl_cons]
    by_cases hxy : gvKeyLt (k x) (k y) = true
    · rw [if_pos hxy]
      rcases List.mem_cons.mp hz with h1 | h1
      · -- z = x: x < y and result not < y, so result not < x
        subst h1
        have hy := ih y y (List.mem_cons_self y ys)
        by_contra hc
        simp only [Bool.not_eq_false] at hc
        rw [gvKeyLt_trans hc hxy] at hy
        exact Bool.noConfusion hy
      · exact ih y z h1
    · simp only [Bool.not_eq_true] at hxy
      rw [if_neg (by simp [hxy])]
      rcases List.mem_cons.mp hz with h1 | h1
      · subst h1
        exact ih z z (List.mem_cons_self z ys)
      · rcases List.mem_cons.mp h1 with h2 | h2
        · -- z = y with ¬(x < y): result not < x gives result not < y
          subst h2
          have hx := ih x x (List.mem_cons_self x ys)
          by_contra hc
          simp only [Bool.not_eq_false] at hc
          rw [gvKeyLt_of_lt_of_not_lt hc hxy] at hx
          exact Bool.noConfusion hx
        · exact ih x z (List.mem_cons.mpr (Or.inr h2))

/-- Specification of `pymaxBy` on a nonempty list: it returns a member
whose key no other member's key strictly exceeds (first-wins on ties). -/
theorem pymaxBy_spec (k : Version → Option (List Nat)) (l : List Version) (h : l ≠ []) :
    ∃ m, pymaxBy k l = some m ∧ m ∈ l ∧ ∀ z ∈ l, gvKeyLt (k m) (k z) = false := by
  cases l with
  | nil => exact absurd rfl h
  | cons x xs =>
    refine ⟨_, rfl, foldl_max_mem k xs x, ?_⟩
    intro z hz
    exact foldl_max_not_lt k xs x z hz

theorem pymaxTup_isSome {l : List (List Nat)} (h : l ≠ []) : (pymaxTup l).isSome = true := by
  cases l with
  | nil => exact absurd rfl h
  | cons x xs => rfl

/-- If some declared game version parses to a tuple not exceeding the
target, `gv` is not `None`. -/
theorem gv_isSome_of_entry {v : Version} {target : List Nat}
    (h : ∃ s ∈ v.game_versions, tupLe (parse_version s) target = true) :
    (gv v target).isSome = true := by
  rcases h with ⟨s, hs, hle⟩
  apply pymaxTup_isSome
  intro hnil
  have hmem : parse_version s ∈ (v.game_versions.map parse_version).filter
      (fun t => tupLe t target) := by
    apply List.mem_filter.mpr
    exact ⟨List.mem_map.mpr ⟨s, hs, rfl⟩, hle⟩
  rw [hnil] at hmem
  exact List.not_mem_nil _ hmem

/-- A version accepted by `is_compatible` declares at least one game
version whose parse lies in the `[fallback, target]` window; in
particular its `game_versions` list is nonempty. -/
theorem compat_game_version {v : Version} {loader : Option String}
    {fallback target : List Nat} {pt : Option String}
    (h : is_compatible v loader fallback target pt = true) :
    ∃ s ∈ v.game_versions,
      tupLe fallback (parse_version s) = true ∧ tupLe (parse_version s) target = true := by
  unfold is_compatible at h
  simp only [Bool.and_eq_true, List.any_eq_true] at h
  rcases h.1 with ⟨g, hg, hrange⟩
  rcases List.mem_map.mp hg with ⟨s, hs, rfl⟩
  exact ⟨s, hs, hrange.1, hrange.2⟩

/-- If `get_latest_version` reports success, the returned version is one
of the fetched versions and is compatible. -/
theorem glv_success_compatible {vs : List Version} {target : List Nat}
    {loader : Option String} {fb : List Nat} {pt : Option String} {v : Version}
    (h : get_latest_version (some vs) target loader fb pt = (some v, true)) :
    v ∈ vs ∧ is_compatible v loader fb target pt = true := by
  simp only [get_latest_version] at h
  by_cases hvs : vs.isEmpty
  · rw [if_pos hvs] at h
    exact absurd (congrArg Prod.snd h) (by simp)
  · rw [if_neg hvs] at h
    by_cases hc : (vs.filter (fun v => is_compatible v loader fb target pt)).isEmpty
    · rw [if_pos hc] at h
      -- the no-compatible branch always returns success `false`
      split at h
      · exact absurd (congrArg Prod.snd h) (by simp)
      · exact absurd (congrArg Prod.snd h) (by simp)
    · rw [if_neg hc] at h
      have hne : vs.filter (fun v => is_compatible v loader fb target pt) ≠ [] := by
        intro hnil
        rw [hnil] at hc
        exact hc rfl
      have hmem : v ∈ vs.filter (fun v => is_compatible v loader fb target pt) := by
        rcases hfind : (vs.filter (fun v => is_compatible v loader fb target pt)).find?
            (fun v => (v.game_versions.map parse_version).contains target) with _ | ex
        · rw [hfind] at h
          rcases pymaxBy_spec (fun v => gv v target) _ hne with ⟨m, hm, hmmem, _⟩
          rw [hm] at h
          have hmv : m = v := by simpa using congrArg Prod.fst h
          exact hmv ▸ hmmem
        · rw [hfind] at h
          have hexv : ex = v := by simpa using congrArg Prod.fst h
          exact hexv ▸ List.mem_of_find?_eq_some hfind
      exact ⟨(List.mem_filter.mp hmem).1, (List.mem_filter.mp hmem).2⟩

/-! ### Claim C2 -/

/-- C2: For every project whose fetched version list is non-empty and
contains at least one version having some game-version entry whose
parsed tuple does not exceed the target, `get_latest_version` never
returns a null version: and when no version is compatible, it returns
the version whose highest game-version tuple not exceeding the target is
greatest under lexicographic tuple comparison, reported as a non-match
(second component `false`). -/
theorem resolver_no_null_on_le_target
    (vs : List Version) (target : List Nat) (loader : Option String)
    (fb : List Nat) (pt : Option String)
    (hne : vs ≠ [])
    (hex : ∃ v ∈ vs, ∃ s ∈ v.game_versions, tupLe (parse_version s) target = true) :
    ((get_latest_version (some vs) target loader fb pt).1.isSome = true)
    ∧ ((∀ v ∈ vs, is_compatible v loader fb target pt = false) →
        (get_latest_version (some vs) target loader fb pt).2 = false
        ∧ ∃ m, (get_latest_version (some vs) target loader fb pt).1 = some m
            ∧ m ∈ vs ∧ (gv m target).isSome = true
            ∧ ∀ x ∈ vs, (gv x target).isSome = true →
                optLe (gv x target) (gv m target) = true) := by
  have hvsE : vs.isEmpty = false := by
    cases vs with
    | nil => exact absurd rfl hne
    | cons a l => rfl
  have hvalid_ne : vs.filter (fun v => (gv v target).isSome) ≠ [] := by
    rcases hex with ⟨v0, hv0, hs0⟩
    intro hnil
    have : v0 ∈ vs.filter (fun v => (gv v target).isSome) :=
      List.mem_filter.mpr ⟨hv0, gv_isSome_of_entry hs0⟩
    rw [hnil] at this
    exact List.not_mem_nil _ this
  have hvalidE : (vs.filter (fun v => (gv v target).isSome)).isEmpty = false := by
    cases hv : vs.filter (fun v => (gv v target).isSome) with
    | nil => exact absurd hv hvalid_ne
    | cons a l => rfl
  constructor
  · -- never null
    simp only [get_latest_version, hvsE, Bool.false_eq_true, if_false]
    by_cases hc : (vs.filter (fun v => is_compatible v loader fb target pt)).isEmpty
    · rw [if_pos hc]
      rw [hvalidE]
      simp only [Bool.false_eq_true, if_false]
      rcases pymaxBy_spec (fun v => gv v target) _ hvalid_ne with ⟨m, hm, _, _⟩
      simp [hm]
    · rw [if_neg hc]
      have hcne : vs.filter (fun v => is_compatible v loader fb target pt) ≠ [] := by
        intro hnil; rw [hnil] at hc; exact hc rfl
      rcases hfind : (vs.filter (fun v => is_compatible v loader fb target pt)).find?
          (fun v => (v.game_versions.map parse_version).contains target) with _ | ex
      · rw [hfind]
        rcases pymaxBy_spec (fun v => gv v target) _ hcne with ⟨m, hm, _, _⟩
        simp only [hm, Option.isSome_some]
      · rw [hfind]
        rfl
  · -- the incompatible-everywhere fallback
    intro hnone
    have hcompE : (vs.filter (fun v => is_compatible v loader fb target pt)).isEmpty = true := by
      have : vs.filter (fun v => is_compatible v loader fb target pt) = [] := by
        apply List.filter_eq_nil_iff.mpr
        intro a ha
        rw [hnone a ha]
        simp
      rw [this]; rfl
    rcases pymaxBy_spec (fun v => gv v target) _ hvalid_ne with ⟨m, hm, hmmem, hmmax⟩
    have hres : get_latest_version (some vs) target loader fb pt =
        (some m, false) := by
      simp only [get_latest_version, hvsE, Bool.false_eq_true, if_false, hcompE, if_true,
        hvalidE, hm]
    refine ⟨by rw [hres], ⟨m, by rw [hres], (List.mem_filter.mp hmmem).1,
      (List.mem_filter.mp hmmem).2, ?_⟩⟩
    intro x hx hxs
    have hxv : x ∈ vs.filter (fun v => (gv v target).isSome) :=
      List.mem_filter.mpr ⟨hx, hxs⟩
    exact optLe_of_not_gvKeyLt (hmmax x hxv)

/-- Version used by the C2 witness: supports only 1.21.0 on the forge
loader, hence incompatible with a fabric window [1.21.4, 1.21.8]. -/
def verIncompat : Version := ⟨["1.21.0"], ["forge"], [], []⟩

theorem resolver_no_null_on_le_target_witness :
    ((get_latest_version (some [verIncompat]) [1, 21, 8] (some "fabric")
        [1, 21, 4] (some "mod")).1.isSome = true)
    ∧ (get_latest_version (some [verIncompat]) [1, 21, 8] (some "fabric")
        [1, 21, 4] (some "mod")).2 = false := by
  have h := resolver_no_null_on_le_target [verIncompat] [1, 21, 8] (some "fabric")
    [1, 21, 4] (some "mod") (by decide)
    ⟨verIncompat, by decide, "1.21.0", by decide, by decide⟩
  exact ⟨h.1, (h.2 (by decide)).1⟩

/-! ### Claim C10 -/

/-- C10: `parse_version` keeps only the purely numeric dot-separated
segments ('1.21.8-rc1' parses to (1, 21)); a string with no numeric
segment parses to the empty tuple, which is `<=` every target but is
never `>=` a non-empty fallback floor, so such game-version entries
never satisfy `is_compatible`'s version check. -/
theorem parse_version_numeric_segments :
    parse_version "1.21.8-rc1" = [1, 21]
    ∧ (∀ s : String, (∀ seg ∈ splitDots s.data, isDigitSeg seg = false) →
        parse_version s = [])
    ∧ (∀ t : List Nat, tupLe [] t = true)
    ∧ (∀ fb : List Nat, fb ≠ [] → tupLe fb [] = false)
    ∧ (∀ (v : Version) (loader : Option String) (fb target : List Nat)
        (pt : Option String), fb ≠ [] →
        (∀ s ∈ v.game_versions, parse_version s = []) →
        is_compatible v loader fb target pt = false) := by
  refine ⟨by decide, ?_, tupLe_nil_left, fun fb h => tupLe_nil_right h, ?_⟩
  · intro s hseg
    unfold parse_version
    have : (splitDots s.data).filter isDigitSeg = [] := by
      apply List.filter_eq_nil_iff.mpr
      intro seg hmem
      rw [hseg seg hmem]
      simp
    rw [this]
    rfl
  · intro v loader fb target pt hfb hall
    have hany : (v.game_versions.map parse_version).any
        (fun g => tupLe fb g && tupLe g target) = false := by
      apply List.any_eq_false.mpr
      intro g hg
      rcases List.mem_map.mp hg with ⟨s, hs, rfl⟩
      rw [hall s hs, tupLe_nil_right hfb]
      simp
    unfold is_compatible
    simp only [hany, Bool.false_and]

/-! ### Claim C7 -/

/-- The retry loop under an all-retryable failure trace: every remaining
attempt is consumed, then the terminal failure is logged and `None`
returned. -/
theorem reqGo_all_retryable (oracle : Nat → AttemptOutcome) (dl : Bool)
    (h : ∀ n, retryable (oracle n) = true) :
    ∀ (r a m : Nat), reqGo oracle dl a r m = ⟨none, m + r, true⟩ := by
  intro r
  induction r with
  | zero => intro a m; rfl
  | succ r ih =>
    intro a m
    have ha := h a
    rcases ho : oracle a with _ | c | _
    · rw [ho] at ha; simp [retryable] at ha
    · rw [ho] at ha
      simp only [retryable, decide_eq_true_eq] at ha
      simp only [reqGo, ho, ha]
      rw [if_pos trivial, ih (a + 1) (m + 1)]
      congr 1
      omega
    · simp only [reqGo, ho]
      rw [ih (a + 1) (m + 1)]
      congr 1
      omega

/-- Counterexample to C7 as stated: an endpoint that fails every attempt
with HTTP 500 (a non-retryable status) causes exactly one attempt, not
`MAX_RETRIES`, before the terminal `None`. -/
theorem retry_http_error_single_attempt :
    request_with_retries (fun _ => AttemptOutcome.http 500) false = ⟨none, 1, true⟩
    ∧ MAX_RETRIES = 5 := by
  constructor
  · decide
  · decide

/-- C7 (amended): an endpoint failing every attempt with a retryable
error (HTTP 429, HTTP 408, or a transport error) gets exactly
`MAX_RETRIES` = 5 attempts and then a terminal `None` with a logged
failure; an endpoint failing with any other HTTP status aborts after
that single attempt, also returning `None`; in neither case does the
loop run unboundedly or raise. -/
theorem retry_bound_amended :
    (∀ (oracle : Nat → AttemptOutcome) (dl : Bool),
        (∀ n, retryable (oracle n) = true) →
        request_with_retries oracle dl = ⟨none, MAX_RETRIES, true⟩)
    ∧ (∀ (oracle : Nat → AttemptOutcome) (dl : Bool) (c : Nat),
        oracle 0 = AttemptOutcome.http c → (c = 429 || c = 408) = false →
        request_with_retries oracle dl = ⟨none, 1, true⟩) := by
  constructor
  · intro oracle dl h
    unfold request_with_retries
    rw [reqGo_all_retryable oracle dl h MAX_RETRIES 0 0, Nat.zero_add]
  · intro oracle dl c h0 hc
    unfold request_with_retries MAX_RETRIES
    simp only [reqGo, h0, hc]
    rfl

theorem retry_bound_amended_witness :
    request_with_retries (fun _ => AttemptOutcome.net) false = ⟨none, MAX_RETRIES, true⟩
    ∧ request_with_retries (fun _ => AttemptOutcome.http 503) true = ⟨none, 1, true⟩ :=
  ⟨retry_bound_amended.1 (fun _ => AttemptOutcome.net) false (fun _ => rfl),
   retry_bound_amended.2 (fun _ => AttemptOutcome.http 503) true 503 rfl rfl⟩

/-! ### Claim C9 -/

/-- C9 fails on the code: `download_file` returns Python `None` no
matter whether the transfer succeeded (first conjunct: all attempts
succeed) or failed (second conjunct), because the DOWNLOAD success path
of `_request_with_retries` is a bare `return` and `download_file` drops
the result anyway; the caller cannot distinguish the two.  The GET
action, by contrast, does return a non-null value on success (last
conjunct), which is what the claimed contract describes. -/
theorem download_file_always_none :
    download_file (fun _ => AttemptOutcome.ok) = none
    ∧ download_file (fun _ => AttemptOutcome.net) = none
    ∧ (request_with_retries (fun _ => AttemptOutcome.ok) true).result = none
    ∧ (request_with_retries (fun _ => AttemptOutcome.ok) false).result = some 1 := by
  refine ⟨rfl, rfl, rfl, rfl⟩

/-! ### Claim C3 -/

/-- C3 fails on the code: for a project (here the dependency X of P)
whose version fetch returns an empty list, `get_latest_version` returns
`(None, False)` and `download_project` then evaluates
`version.get("game_versions", [])` on `None`, raising `AttributeError`
before `log_event("no_version", ...)` is reached.  The uncaught
exception propagates: the sibling dependency branch Y of the same parent
is never visited. -/
theorem empty_versions_crash_no_log :
    (stepBody envNoVersion argsStd "X" []).outcome = Outcome.crashed "AttributeError"
    ∧ (stepBody envNoVersion argsStd "X" []).logs = []
    ∧ (downloadRec envNoVersion argsStd 4 "P" (initSt [])).exn = some "AttributeError"
    ∧ (downloadRec envNoVersion argsStd 4 "P" (initSt [])).logs = [("downloaded", "P")]
    ∧ (downloadRec envNoVersion argsStd 4 "P" (initSt [])).seen = ["X", "P"] := by
  refine ⟨by decide, by decide, by decide, by decide, by decide⟩

/-! ### Claim C8 -/

/-- C8 fails on the code: for a project whose type is not a recognized
content category (here "plugin"), `resolve_target_directory` still
returns a truthy path, so the skip guard never fires; `os.makedirs`
creates the unrecognized directory and `load_index` then raises
`ValueError`, with no logged skip and no index write. -/
theorem unknown_type_creates_dir_and_raises :
    (stepBody envPlugin argsStd "Q" []).outcome = Outcome.crashed "ValueError"
    ∧ (stepBody envPlugin argsStd "Q" []).dirs = ["plugins"]
    ∧ (stepBody envPlugin argsStd "Q" []).stores = []
    ∧ (stepBody envPlugin argsStd "Q" []).logs = []
    ∧ (stepBody envPlugin argsStd "Q" []).downloaded = [] := by
  refine ⟨by decide, by decide, by decide, by decide, by decide⟩

theorem parse_version_numeric_segments_witness :
    parse_version "abc.def" = []
    ∧ is_compatible ⟨["abc"], [], [], []⟩ none [1, 21, 4] [1, 21, 8] none = false := by
  refine ⟨parse_version_numeric_segments.2.1 "abc.def" (by decide), ?_⟩
  exact parse_version_numeric_segments.2.2.2.2 ⟨["abc"], [], [], []⟩ none
    [1, 21, 4] [1, 21, 8] none (by decide) (by decide)

/-! ### Index store lemmas (towards claim C1) -/

/-- In a list with `Nodup` second components, two entries sharing their
second component are the same entry. -/
theorem mem_eq_of_snd_nodup :
    ∀ {idx : Index}, (idx.map Prod.snd).Nodup →
      ∀ {p q : String × String}, p ∈ idx → q ∈ idx → p.2 = q.2 → p = q := by
  intro idx
  induction idx with
  | nil => intro _ p q hp; cases hp
  | cons a l ih =>
    intro h p q hp hq hpq
    rw [List.map_cons, List.nodup_cons] at h
    rcases List.mem_cons.mp hp with hpa | hp'
    · rcases List.mem_cons.mp hq with hqa | hq'
      · rw [hpa, hqa]
      · exfalso
        apply h.1
        rw [hpa] at hpq
        exact hpq ▸ List.mem_map_of_mem Prod.snd hq'
    · rcases List.mem_cons.mp hq with hqa | hq'
      · exfalso
        apply h.1
        rw [hqa] at hpq
        exact hpq ▸ List.mem_map_of_mem Prod.snd hp'
      · exact ih h.2 hp' hq' hpq

/-- `idxPop` (a filter) preserves well-formedness. -/
theorem GoodIndex_idxPop {idx : Index} (h : GoodIndex idx) (k : String) :
    GoodIndex (idxPop idx k) := by
  constructor
  · exact h.1.sublist ((List.filter_sublist idx).map Prod.fst)
  · exact h.2.sublist ((List.filter_sublist idx).map Prod.snd)

/-- The in-place value rewrite of `index[k] = v` keeps values `Nodup`,
provided every entry already carrying value `id` has key `fn`. -/
theorem values_nodup_inplace :
    ∀ (P : Index) (fn id : String),
      (P.map Prod.fst).Nodup → (P.map Prod.snd).Nodup →
      (∀ p ∈ P, p.2 = id → p.1 = fn) →
      (P.map (fun p => if p.1 = fn then id else p.2)).Nodup := by
  intro P
  induction P with
  | nil => intro fn id _ _ _; exact List.nodup_nil
  | cons a l ih =>
    intro fn id hk hv hA
    rw [List.map_cons, List.nodup_cons] at hk hv
    rw [List.map_cons, List.nodup_cons]
    by_cases ha : a.1 = fn
    · -- the head is the rewritten entry
      have htail : ∀ q ∈ l, ¬ q.1 = fn := by
        intro q hq hfq
        exact hk.1 (by rw [← ha] at hfq; exact hfq ▸ List.mem_map_of_mem Prod.fst hq)
      have hmap : l.map (fun p => if p.1 = fn then id else p.2) = l.map Prod.snd := by
        apply List.map_congr_left
        intro q hq
        rw [if_neg (htail q hq)]
      rw [if_pos ha, hmap]
      constructor
      · intro hid
        rcases List.mem_map.mp hid with ⟨q, hq, hqid⟩
        exact htail q hq (hA q (List.mem_cons.mpr (Or.inr hq)) hqid)
      · exact hv.2
    · rw [if_neg ha]
      constructor
      · intro hmem
        rcases List.mem_map.mp hmem with ⟨q, hq, hqv⟩
        by_cases hqf : q.1 = fn
        · rw [if_pos hqf] at hqv
          exact ha (hA a (List.mem_cons_self a l) hqv.symm)
        · rw [if_neg hqf] at hqv
          exact hv.1 (hqv ▸ List.mem_map_of_mem Prod.snd hq)
      · exact ih fn id hk.2 hv.2
          (fun p hp => hA p (List.mem_cons.mpr (Or.inr hp)))

/-- `index[fn] = id` preserves well-formedness when every entry already
carrying value `id` has key `fn`. -/
theorem GoodIndex_idxSet_unique {P : Index} {fn id : String}
    (hg : GoodIndex P) (hA : ∀ p ∈ P, p.2 = id → p.1 = fn) :
    GoodIndex (idxSet P fn id) := by
  unfold idxSet
  by_cases hex : (P.find? (fun p => p.1 = fn)).isSome
  · rw [if_pos hex]
    constructor
    · have hkeys : (P.map (fun p => if p.1 = fn then (fn, id) else p)).map Prod.fst
          = P.map Prod.fst := by
        rw [List.map_map]
        apply List.map_congr_left
        intro p _
        by_cases hp : p.1 = fn
        · simp only [Function.comp_apply, if_pos hp]
          exact hp.symm
        · simp only [Function.comp_apply, if_neg hp]
      rw [hkeys]
      exact hg.1
    · have hvals : (P.map (fun p => if p.1 = fn then (fn, id) else p)).map Prod.snd
          = P.map (fun p => if p.1 = fn then id else p.2) := by
        rw [List.map_map]
        apply List.map_congr_left
        intro p _
        by_cases hp : p.1 = fn
        · simp only [Function.comp_apply, if_pos hp]
        · simp only [Function.comp_apply, if_neg hp]
      rw [hvals]
      exact values_nodup_inplace P fn id hg.1 hg.2 hA
  · rw [if_neg hex]
    have hnone : P.find? (fun p => p.1 = fn) = none := by
      rcases hf : P.find? (fun p => p.1 = fn) with _ | e
      · exact hf
      · rw [hf] at hex; exact absurd rfl hex
    have hfn : ∀ p ∈ P, ¬ p.1 = fn := by
      intro p hp
      have := List.find?_eq_none.mp hnone p hp
      simpa using this
    constructor
    · rw [List.map_append]
      rw [List.nodup_append]
      refine ⟨hg.1, List.nodup_singleton fn, ?_⟩
      intro x hx
      rcases List.mem_map.mp hx with ⟨p, hp, rfl⟩
      simp only [List.map_cons, List.map_nil, List.mem_singleton]
      exact fun hcontra => hfn p hp hcontra
    · rw [List.map_append]
      rw [List.nodup_append]
      refine ⟨hg.2, List.nodup_singleton id, ?_⟩
      intro x hx
      rcases List.mem_map.mp hx with ⟨p, hp, rfl⟩
      simp only [List.map_cons, List.map_nil, List.mem_singleton]
      intro hcontra
      exact hfn p hp (hA p hp hcontra)

/-- The full update performed by the final locked section of
`download_project` — pop the detected old filename (if any), insert the
new entry — preserves well-formedness of the index. -/
theorem GoodIndex_update (idx : Index) (fn id : String) (hg : GoodIndex idx) :
    GoodIndex (idxSet
      (match (idx.find? (fun p => p.2 = id && ¬ p.1 = fn)).map Prod.fst with
       | some o => idxPop idx o
       | none => idx) fn id) := by
  rcases hfind : idx.find? (fun p => p.2 = id && ¬ p.1 = fn) with _ | e
  · rw [hfind]
    apply GoodIndex_idxSet_unique hg
    intro p hp hpid
    have := List.find?_eq_none.mp hfind p hp
    simp only [Bool.and_eq_true, decide_eq_true_eq, not_and] at this
    by_contra hne
    exact (this (by simpa using hpid)) (by simpa using hne)
  · rw [hfind]
    apply GoodIndex_idxSet_unique (GoodIndex_idxPop hg e.1)
    intro p hp hpid
    exfalso
    have hpin : p ∈ idx := (List.mem_filter.mp hp).1
    have hpne : ¬ p.1 = e.1 := by
      have := (List.mem_filter.mp hp).2
      simpa using this
    have hpe := List.find?_some hfind
    simp only [Bool.and_eq_true, decide_eq_true_eq] at hpe
    have hein : e ∈ idx := List.mem_of_find?_eq_some hfind
    have : p = e := mem_eq_of_snd_nodup hg.2 hpin hein (by rw [hpid, hpe.1])
    exact hpne (by rw [this])

/-- A loaded index file is well-formed when all stored ones are
(a missing file loads as the empty, trivially well-formed, mapping). -/
theorem GoodIndex_loadStore {st : Stores} (hst : GoodStores st) (file : String) :
    GoodIndex (loadStore st file) := by
  unfold loadStore
  rcases hf : st.find? (fun e => e.1 = file) with _ | e
  · rw [hf]
    exact ⟨List.nodup_nil, List.nodup_nil⟩
  · rw [hf]
    exact hst e (List.mem_of_find?_eq_some hf)

/-- `save_index` of a well-formed index keeps all stored files well-formed. -/
theorem GoodStores_storeSet {st : Stores} {file : String} {idx : Index}
    (hst : GoodStores st) (hidx : GoodIndex idx) :
    GoodStores (storeSet st file idx) := by
  unfold storeSet
  by_cases hex : (st.find? (fun e => e.1 = file)).isSome
  · rw [if_pos hex]
    intro e he
    rcases List.mem_map.mp he with ⟨e0, he0, rfl⟩
    by_cases h0 : e0.1 = file
    · rw [if_pos h0]; exact hidx
    · rw [if_neg h0]; exact hst e0 he0
  · rw [if_neg hex]
    intro e he
    rcases List.mem_append.mp he with h | h
    · exact hst e h
    · rw [List.mem_singleton.mp h]; exact hidx

/-- The final locked read-modify-write of `download_project`
(`stepFinish`) preserves well-formedness of every stored index, given
that `old_filename` is the value the body computed from the loaded index. -/
theorem GoodStores_stepFinish {mod_id : String} {st : Stores} {dirs : List String}
    {idxfile : String} {existing_id : Option String} {filename : String} {v : Version}
    (hst : GoodStores st) :
    GoodStores (stepFinish mod_id st dirs idxfile existing_id
      (((loadStore st idxfile).find?
          (fun p => p.2 = mod_id && ¬ p.1 = filename)).map Prod.fst)
      filename v).stores := by
  unfold stepFinish
  by_cases hex : existing_id = some mod_id
  · rw [if_pos hex]
    exact hst
  · rw [if_neg hex]
    apply GoodStores_storeSet hst
    exact GoodIndex_update (loadStore st idxfile) filename mod_id
      (GoodIndex_loadStore hst idxfile)

/-- One `download_project` body preserves well-formedness of every
stored index, whatever branch it takes. -/
theorem GoodStores_stepBody (env : Env) (args : Args) (mod_id : String) (st : Stores)
    (hst : GoodStores st) : GoodStores (stepBody env args mod_id st).stores := by
  unfold stepBody
  split
  · exact hst
  · try dsimp only
    split
    · -- success = false
      split
      · exact hst
      · exact hst
    · -- success = true
      split
      · exact hst
      · split
        · exact hst
        · try dsimp only
          split
          · exact hst
          · try dsimp only
            split
            · exact hst
            · split
              · exact hst
              · try dsimp only
                split
                · split
                  · exact GoodStores_stepFinish hst
                  · split
                    · exact hst
                    · exact hst
                · exact GoodStores_stepFinish hst

/-! ### Walker unfolding and generic fold preservation -/

theorem downloadBody_zero (env : Env) (args : Args) (mod_id : String) (st : RunSt) :
    downloadBody env args 0 mod_id st = { st with fuelOut := true } := rfl

theorem downloadBody_succ (env : Env) (args : Args) (n : Nat) (mod_id : String) (st : RunSt) :
    downloadBody env args (n + 1) mod_id st =
      (match (stepBody env args mod_id st.stores).outcome with
       | Outcome.crashed m =>
         { seen := mod_id :: st.seen
           stores := (stepBody env args mod_id st.stores).stores
           downloads := st.downloads
           logs := st.logs ++ (stepBody env args mod_id st.stores).logs
           exn := some m
           fuelOut := st.fuelOut }
       | _ =>
         runList (fun dep acc => downloadRec env args n dep.project_id acc)
           ((stepBody env args mod_id st.stores).deps.filter
             (fun d => d.dependency_type = "required"))
           { seen := mod_id :: st.seen
             stores := (stepBody env args mod_id st.stores).stores
             downloads := if (stepBody env args mod_id st.stores).downloaded.isEmpty
                          then st.downloads else st.downloads ++ [mod_id]
             logs := st.logs ++ (stepBody env args mod_id st.stores).logs
             exn := st.exn
             fuelOut := st.fuelOut }) := rfl

/-- A property preserved by each application of `f` is preserved by the
whole left fold. -/
theorem runList_preserve {α : Type} (Q : RunSt → Prop) (f : α → RunSt → RunSt)
    (hf : ∀ a s, Q s → Q (f a s)) :
    ∀ (l : List α) (s : RunSt), Q s → Q (runList f l s) := by
  intro l
  induction l with
  | nil => intro s hs; exact hs
  | cons a l ih =>
    intro s hs
    exact ih _ (hf a s hs)

/-- Well-formedness of all stored indexes is preserved by every (fueled)
`download_project` call, including its recursive dependency expansion. -/
theorem GoodStores_downloadRec (env : Env) (args : Args) :
    ∀ (fuel : Nat) (mod_id : String) (st : RunSt),
      GoodStores st.stores → GoodStores (downloadRec env args fuel mod_id st).stores := by
  intro fuel
  induction fuel with
  | zero =>
    intro mod_id st h
    unfold downloadRec
    split
    · exact h
    · split
      · exact h
      · rw [downloadBody_zero]
        exact h
  | succ n ih =>
    intro mod_id st h
    unfold downloadRec
    split
    · exact h
    · split
      · exact h
      · rw [downloadBody_succ]
        have hstep := GoodStores_stepBody env args mod_id st.stores h
        rcases ho : (stepBody env args mod_id st.stores).outcome with _ | _ | _ | _ | _ | _ | _ | m
        all_goals try dsimp only
        all_goals try exact hstep
        all_goals
          exact runList_preserve (fun s => GoodStores s.stores) _
            (fun dep s hs => ih dep.project_id s hs) _ _ hstep

/-! ### Claim C1 -/

/-- C1: For every run of `download_project` operations starting from
index stores in which at most one filename maps to each project id (and
each index is a well-formed dict), every index persisted by `save_index`
along the run preserves that invariant: the final locked
read-modify-write pops the detected prior filename of the project and
inserts the single new filename entry, so no index ever holds two
entries for the same project id. -/
theorem index_unique_id_invariant (env : Env) (args : Args) (mods : List String)
    (st : RunSt) (hst : GoodStores st.stores) :
    GoodStores (runAll env args mods st).stores := by
  unfold runAll
  exact runList_preserve (fun s => GoodStores s.stores) _
    (fun a s hs => GoodStores_downloadRec env args (FUEL env) a { s with exn := none } hs)
    mods st hst

theorem index_unique_id_invariant_witness :
    GoodStores (initSt []).stores
    ∧ GoodStores (runAll envNoVersion argsStd ["P", "Y"] (initSt [])).stores := by
  have h0 : GoodStores (initSt []).stores := by
    intro e he
    exact absurd he (List.not_mem_nil e)
  exact ⟨h0, index_unique_id_invariant envNoVersion argsStd ["P", "Y"] (initSt []) h0⟩

/-! ### Reduction lemmas for the gate branches of `download_project` -/

/-- `resolve_target_directory` never returns a falsy (empty) string, so
the `if not target_dir` guard in `download_project` is dead code. -/
theorem resolve_target_directory_ne (p : String) : resolve_target_directory p ≠ "" := by
  unfold resolve_target_directory
  intro h
  have hd := congrArg String.data h
  rw [String.data_append] at hd
  simp at hd

/-! ### Claim C4 -/

/-- C4: whenever the resolved version's game-version list does not
contain the target and the index does not already record this project id
under the candidate filename, `download_project` consults the operator;
on decline the branch ends with outcome `declined`, a logged
"no_version" failure, and no mutation: the stores are returned
unchanged, no file is downloaded, and no file is removed. -/
theorem fallback_decline_no_mutation (env : Env) (args : Args) (mod_id : String)
    (st : Stores) (d : ProjDetails) (v : Version) (file : MFile) (ptype idxfile : String)
    (hd : envDetails env mod_id = some d)
    (hglv : get_latest_version (envVersions env mod_id) args.version args.loader
        args.fallback_bound d.project_type = (some v, true))
    (hfile : v.files.find? (fun f => f.primary) = some file)
    (hpt : (if v.loaders.contains "datapack" then some "datapack" else d.project_type)
        = some ptype)
    (hidx : INDEX_FILES ptype = some idxfile)
    (hnotgt : (v.game_versions.map parse_version).contains args.version = false)
    (hnotown : idxGet (loadStore st idxfile) (normalize_filename file.filename)
        ≠ some mod_id)
    (hdecline : envPrompt env mod_id = false) :
    (stepBody env args mod_id st).outcome = Outcome.declined
    ∧ (stepBody env args mod_id st).stores = st
    ∧ (stepBody env args mod_id st).downloaded = []
    ∧ (stepBody env args mod_id st).removed = []
    ∧ (stepBody env args mod_id st).logs = [("no_version", mod_id)] := by
  rcases hv : envVersions env mod_id with _ | vs
  · rw [hv] at hglv
    simp [get_latest_version] at hglv
  · rw [hv] at hglv
    have hcompat := (glv_success_compatible hglv).2
    rcases compat_game_version hcompat with ⟨s, hs, _, _⟩
    have hgvne : ((v.game_versions.map parse_version).isEmpty) = false := by
      rcases hgl : v.game_versions.map parse_version with _ | ⟨a, l⟩
      · exfalso
        have hmem : parse_version s ∈ v.game_versions.map parse_version :=
          List.mem_map_of_mem parse_version hs
        rw [hgl] at hmem
        exact List.not_mem_nil _ hmem
      · rfl
    have hrec : stepBody env args mod_id st =
        ⟨Outcome.declined, st, [], [], [resolve_target_directory ptype],
         [("no_version", mod_id)], []⟩ := by
      unfold stepBody
      rw [hd]
      dsimp only
      rw [hv, hglv]
      dsimp only
      rw [if_neg (by simp)]
      rw [hfile]
      dsimp only
      rw [hpt]
      dsimp only
      rw [if_neg (resolve_target_directory_ne ptype)]
      rw [hidx]
      dsimp only
      rw [hnotgt, decide_eq_false hnotown]
      rw [if_pos (by simp)]
      rw [hdecline]
      rw [if_neg (by simp)]
      rw [hgvne]
      rw [if_neg (by simp)]
    rw [hrec]
    exact ⟨rfl, rfl, rfl, rfl, rfl⟩

theorem fallback_decline_no_mutation_witness :
    (stepBody envFallback argsStd "F" []).outcome = Outcome.declined
    ∧ (stepBody envFallback argsStd "F" []).stores = []
    ∧ (stepBody envFallback argsStd "F" []).downloaded = []
    ∧ (stepBody envFallback argsStd "F" []).removed = []
    ∧ (stepBody envFallback argsStd "F" []).logs = [("no_version", "F")] :=
  fallback_decline_no_mutation envFallback argsStd "F" []
    ⟨none, some "mod"⟩ verFallback ⟨"f.jar", "u", true⟩ "mod" "mods_index.json"
    (by decide) (by decide) (by decide) (by decide) (by decide)
    (by decide) (by decide) (by decide)

/-! ### Claim C5 -/

/-- When the index already maps the candidate filename to this very
project id, the body takes the already-exists branch: outcome `skipped`,
a "skipped" log, and no download, no removal, no store change, and no
dependency recursion. -/
theorem stepBody_already_current (env : Env) (args : Args) (mod_id : String) (st : Stores)
    (h : AlreadyCurrent env args st mod_id) :
    ∃ dd, stepBody env args mod_id st =
      ⟨Outcome.skipped, st, [], [], dd, [("skipped", mod_id)], []⟩ := by
  rcases h with ⟨d, v, file, ptype, idxfile, hd, hglv, hfile, hpt, hidx, hown⟩
  refine ⟨[resolve_target_directory ptype], ?_⟩
  unfold stepBody
  rw [hd]
  dsimp only
  rw [hglv]
  dsimp only
  rw [if_neg (by simp)]
  rw [hfile]
  dsimp only
  rw [hpt]
  dsimp only
  rw [if_neg (resolve_target_directory_ne ptype)]
  rw [hidx]
  dsimp only
  rw [hown]
  rw [if_neg (by simp)]
  unfold stepFinish
  rw [if_pos rfl]

/-- C5: a second orchestrator run over top-level projects whose local
state is already current (the index maps each candidate filename to its
project id, as a completed first run leaves it) performs zero downloads
and changes no store: every branch reaches the already-exists check,
logs "skipped", and terminates before any file download. -/
theorem second_run_zero_downloads (env : Env) (args : Args) (mods : List String) :
    ∀ (st : RunSt), mods.Nodup →
    (∀ id ∈ mods, id ∉ st.seen) →
    (∀ id ∈ mods, AlreadyCurrent env args st.stores id) →
    (runAll env args mods st).stores = st.stores
    ∧ (runAll env args mods st).downloads = st.downloads
    ∧ (runAll env args mods st).logs = st.logs ++ mods.map (fun id => ("skipped", id)) := by
  induction mods with
  | nil =>
    intro st _ _ _
    exact ⟨rfl, rfl, by simp [runAll, runList]⟩
  | cons id rest ih =>
    intro st hnodup hfresh hcur
    rcases stepBody_already_current env args id st.stores
      (hcur id (List.mem_cons_self id rest)) with ⟨dd, hrec⟩
    have hstep : downloadRec env args (FUEL env) id { st with exn := none } =
        ⟨id :: st.seen, st.stores, st.downloads,
         st.logs ++ [("skipped", id)], none, st.fuelOut⟩ := by
      unfold downloadRec
      rw [if_neg (by simp)]
      rw [if_neg (by
        dsimp only
        have h1 := hfresh id (List.mem_cons_self id rest)
        simpa using h1)]
      have hfuel : FUEL env = env.table.length + 1 := rfl
      rw [hfuel, downloadBody_succ]
      dsimp only
      rw [hrec]
      dsimp only [runList]
      rfl
    have hunf : runAll env args (id :: rest) st =
        runAll env args rest
          ⟨id :: st.seen, st.stores, st.downloads,
           st.logs ++ [("skipped", id)], none, st.fuelOut⟩ := by
      simp only [runAll, runList]
      rw [hstep]
    have hnodup' := (List.nodup_cons.mp hnodup).2
    have hidrest := (List.nodup_cons.mp hnodup).1
    have hfresh' : ∀ i ∈ rest,
        i ∉ (⟨id :: st.seen, st.stores, st.downloads,
             st.logs ++ [("skipped", id)], none, st.fuelOut⟩ : RunSt).seen := by
      intro i hi
      dsimp only
      intro hmem
      rcases List.mem_cons.mp hmem with h1 | h1
      · exact hidrest (h1 ▸ hi)
      · exact hfresh i (List.mem_cons.mpr (Or.inr hi)) h1
    have hcur' : ∀ i ∈ rest,
        AlreadyCurrent env args (⟨id :: st.seen, st.stores, st.downloads,
          st.logs ++ [("skipped", id)], none, st.fuelOut⟩ : RunSt).stores i := by
      intro i hi
      exact hcur i (List.mem_cons.mpr (Or.inr hi))
    rcases ih _ hnodup' hfresh' hcur' with ⟨h1, h2, h3⟩
    rw [hunf]
    refine ⟨h1, h2, ?_⟩
    rw [h3]
    simp

theorem second_run_zero_downloads_witness :
    (runAll envCurrent argsStd ["W"] ⟨[], storesCurrent, [], [], none, false⟩).stores
        = storesCurrent
    ∧ (runAll envCurrent argsStd ["W"] ⟨[], storesCurrent, [], [], none, false⟩).downloads
        = []
    ∧ (runAll envCurrent argsStd ["W"] ⟨[], storesCurrent, [], [], none, false⟩).logs
        = [("skipped", "W")] := by
  have h := second_run_zero_downloads envCurrent argsStd ["W"]
    ⟨[], storesCurrent, [], [], none, false⟩ (by decide) (by decide)
    (fun id hid => by
      have hW : id = "W" := by simpa using hid
      subst hW
      exact ⟨⟨none, some "mod"⟩, verCurrent, ⟨"w.jar", "u", true⟩, "mod",
        "mods_index.json", by decide, by decide, by decide, by decide,
        by decide, by decide⟩)
  simpa using h

/-! ### Claim C6: seen-set monotonicity, dedup, fuel sufficiency -/

theorem strContains_iff {l : List String} {a : String} :
    l.contains a = true ↔ a ∈ l := by
  simp [List.contains]

theorem runList_seen_sub {α : Type} (f : α → RunSt → RunSt)
    (hf : ∀ a s, s.seen ⊆ (f a s).seen) :
    ∀ (l : List α) (s : RunSt), s.seen ⊆ (runList f l s).seen := by
  intro l
  induction l with
  | nil => intro s; exact List.Subset.refl _
  | cons a l ih => intro s; exact List.Subset.trans (hf a s) (ih (f a s))

theorem seen_sub_downloadRec (env : Env) (args : Args) :
    ∀ (fuel : Nat) (mod_id : String) (st : RunSt),
      st.seen ⊆ (downloadRec env args fuel mod_id st).seen := by
  intro fuel
  induction fuel with
  | zero =>
    intro mod_id st
    unfold downloadRec
    split
    · exact List.Subset.refl _
    · split
      · exact List.Subset.refl _
      · rw [downloadBody_zero]
        exact List.Subset.refl _
  | succ n ih =>
    intro mod_id st
    unfold downloadRec
    split
    · exact List.Subset.refl _
    · split
      · exact List.Subset.refl _
      · rw [downloadBody_succ]
        rcases (stepBody env args mod_id st.stores).outcome with _ | _ | _ | _ | _ | _ | _ | m
        all_goals try dsimp only
        all_goals
          try exact List.subset_cons_self mod_id st.seen
        all_goals {
          intro x hx
          exact runList_seen_sub _ (fun (dep : Dependency) s => ih dep.project_id s) _ _
            (List.mem_cons.mpr (Or.inr hx)) }

/-- The dedup invariant survives one (fueled) `download_project` call,
including its recursive dependency expansion: a project id is recorded
as downloaded at most once. -/
theorem DlInv_downloadRec (env : Env) (args : Args) :
    ∀ (fuel : Nat) (mod_id : String) (st : RunSt),
      DlInv st → DlInv (downloadRec env args fuel mod_id st) := by
  intro fuel
  induction fuel with
  | zero =>
    intro mod_id st h
    unfold downloadRec
    split
    · exact h
    · split
      · exact h
      · rw [downloadBody_zero]
        exact h
  | succ n ih =>
    intro mod_id st h
    unfold downloadRec
    by_cases hexn : st.exn.isSome = true
    · rw [if_pos hexn]; exact h
    · rw [if_neg hexn]
      by_cases hseen : st.seen.contains mod_id = true
      · rw [if_pos hseen]; exact h
      · rw [if_neg hseen]
        have hnm : mod_id ∉ st.seen := by simpa using hseen
        rw [downloadBody_succ]
        have hbase : DlInv ⟨mod_id :: st.seen,
            (stepBody env args mod_id st.stores).stores,
            (if (stepBody env args mod_id st.stores).downloaded.isEmpty
             then st.downloads else st.downloads ++ [mod_id]),
            st.logs ++ (stepBody env args mod_id st.stores).logs,
            st.exn, st.fuelOut⟩ := by
          constructor
          · dsimp only
            split
            · exact h.1
            · rw [List.nodup_append]
              refine ⟨h.1, List.nodup_singleton mod_id, ?_⟩
              intro x hx hx1
              rw [List.mem_singleton.mp hx1] at hx
              exact hnm (h.2 mod_id hx)
          · dsimp only
            intro dl hdl
            split at hdl
            · exact List.mem_cons.mpr (Or.inr (h.2 dl hdl))
            · rcases List.mem_append.mp hdl with h1 | h1
              · exact List.mem_cons.mpr (Or.inr (h.2 dl h1))
              · rw [List.mem_singleton.mp h1]
                exact List.mem_cons_self _ _
        rcases (stepBody env args mod_id st.stores).outcome with _ | _ | _ | _ | _ | _ | _ | m
        all_goals try dsimp only
        all_goals try exact ⟨h.1, fun dl hdl => List.mem_cons.mpr (Or.inr (h.2 dl hdl))⟩
        all_goals
          exact runList_preserve DlInv _
            (fun dep s hs => ih dep.project_id s hs) _ _ hbase

/-- Length of a filter is monotone in the predicate. -/
theorem filter_length_le {α : Type} (l : List α) (p q : α → Bool)
    (h : ∀ x, q x = true → p x = true) :
    (l.filter q).length ≤ (l.filter p).length := by
  induction l with
  | nil => exact Nat.le_refl _
  | cons a t ih =>
    by_cases hq : q a = true
    · rw [List.filter_cons, if_pos hq, List.filter_cons, if_pos (h a hq)]
      simpa using ih
    · rw [List.filter_cons, if_neg (by simp [hq])]
      refine Nat.le_trans ih ?_
      rw [List.filter_cons]
      split
      · exact Nat.le_succ _
      · exact Nat.le_refl _

/-- Strict version of `filter_length_le` at a member that the stronger
predicate drops. -/
theorem filter_length_lt {α : Type} (l : List α) (p q : α → Bool)
    (h : ∀ x, q x = true → p x = true) (a : α) (ha : a ∈ l)
    (hpa : p a = true) (hqa : q a = false) :
    (l.filter q).length < (l.filter p).length := by
  induction l with
  | nil => cases ha
  | cons b t ih =>
    rcases List.mem_cons.mp ha with h1 | hat
    · subst h1
      rw [List.filter_cons, if_neg (by simp [hqa]), List.filter_cons, if_pos hpa]
      simpa using Nat.lt_succ_of_le (filter_length_le t p q h)
    · by_cases hqb : q b = true
      · rw [List.filter_cons, if_pos hqb, List.filter_cons, if_pos (h b hqb)]
        simpa using ih hat
      · rw [List.filter_cons, if_neg (by simp [hqb])]
        refine Nat.lt_of_lt_of_le (ih hat) ?_
        rw [List.filter_cons]
        split
        · exact Nat.le_succ _
        · exact Nat.le_refl _

/-- Growing the seen-set cannot grow the termination measure. -/
theorem measureRem_antitone (env : Env) {s t : List String}
    (h : ∀ x, x ∈ s → x ∈ t) : measureRem env t ≤ measureRem env s := by
  unfold measureRem
  apply filter_length_le
  intro x hx
  simp only [decide_eq_true_eq] at hx ⊢
  intro hmem
  exact hx (strContains_iff.mpr (h x (strContains_iff.mp hmem)))

/-- Marking an unseen table id as seen strictly shrinks the measure. -/
theorem measureRem_cons_lt (env : Env) {id : String} {seen : List String}
    (hid : id ∈ env.table.map (fun e => e.id)) (hns : id ∉ seen) :
    measureRem env (id :: seen) < measureRem env seen := by
  unfold measureRem
  apply filter_length_lt _ _ _ ?_ id
  · exact List.mem_dedup.mpr hid
  · simp only [decide_eq_true_eq]
    intro hc
    exact hns (strContains_iff.mp hc)
  · simp
  · intro x hx
    simp only [decide_eq_true_eq] at hx ⊢
    intro hc
    exact hx (strContains_iff.mpr (List.mem_cons.mpr
      (Or.inr (strContains_iff.mp hc))))

/-- A body that returns dependencies to recurse into resolved its
project details, so the project id is one of the environment's ids. -/
theorem stepBody_deps_details (env : Env) (args : Args) (mod_id : String) (st : Stores)
    (h : (stepBody env args mod_id st).deps ≠ []) : envDetails env mod_id ≠ none := by
  intro hnone
  unfold stepBody at h
  rw [hnone] at h
  exact h rfl

theorem envDetails_mem {env : Env} {id : String} (h : envDetails env id ≠ none) :
    id ∈ env.table.map (fun e => e.id) := by
  unfold envDetails at h
  rcases hf : env.table.find? (fun e => e.id = id) with _ | e
  · rw [hf] at h
    exact absurd rfl h
  · have hm := List.mem_of_find?_eq_some hf
    have hp := List.find?_some hf
    have hid : e.id = id := by simpa using hp
    exact hid ▸ List.mem_map_of_mem (fun e => e.id) hm

/-- Fuel exceeding the number of unseen table ids is never exhausted:
the recursion terminates. -/
theorem fuelOut_downloadRec (env : Env) (args : Args) :
    ∀ (fuel : Nat) (mod_id : String) (st : RunSt),
      st.fuelOut = false → measureRem env st.seen < fuel →
      (downloadRec env args fuel mod_id st).fuelOut = false := by
  intro fuel
  induction fuel with
  | zero =>
    intro mod_id st _ hm
    exact absurd hm (Nat.not_lt_zero _)
  | succ n ih =>
    intro mod_id st hfo hm
    unfold downloadRec
    by_cases hexn : st.exn.isSome = true
    · rw [if_pos hexn]; exact hfo
    · rw [if_neg hexn]
      by_cases hseen : st.seen.contains mod_id = true
      · rw [if_pos hseen]; exact hfo
      · rw [if_neg hseen]
        have hnm : mod_id ∉ st.seen := by simpa using hseen
        rw [downloadBody_succ]
        rcases (stepBody env args mod_id st.stores).outcome with _ | _ | _ | _ | _ | _ | _ | m
        all_goals try dsimp only
        all_goals try exact hfo
        all_goals {
          by_cases hdeps : (stepBody env args mod_id st.stores).deps = []
          · rw [hdeps]
            simp only [List.filter_nil]
            dsimp only [runList]
            exact hfo
          · have hidmem := envDetails_mem (stepBody_deps_details env args mod_id st.stores hdeps)
            have hm1 : measureRem env (mod_id :: st.seen) < n := by
              have hlt := measureRem_cons_lt env hidmem hnm
              omega
            refine (runList_preserve
              (fun s => s.fuelOut = false ∧ (mod_id :: st.seen) ⊆ s.seen) _
              ?_ _ _ ?_).1
            · intro dep s hs
              refine ⟨?_, List.Subset.trans hs.2 (seen_sub_downloadRec env args n dep.project_id s)⟩
              apply ih dep.project_id s hs.1
              exact Nat.lt_of_le_of_lt (measureRem_antitone env hs.2) hm1
            · exact ⟨hfo, List.Subset.refl _⟩ }

/-! ### Claim C6 -/

/-- C6: invocations of `download_project` sharing one seen-set download
each project id at most once per run — an id already in the seen-set
returns immediately with the state untouched (before any network or
index operation), the downloads list never acquires a duplicate id, and
the recursion over required dependencies terminates (fuel beyond the
number of unseen table ids, cyclic dependency graphs included, is never
exhausted). -/
theorem dedup_guard_and_termination (env : Env) (args : Args) :
    (∀ (fuel : Nat) (mod_id : String) (st : RunSt), mod_id ∈ st.seen →
        downloadRec env args fuel mod_id st = st)
    ∧ (∀ (fuel : Nat) (mod_id : String) (st : RunSt),
        DlInv st → DlInv (downloadRec env args fuel mod_id st))
    ∧ (∀ (fuel : Nat) (mod_id : String) (st : RunSt),
        st.fuelOut = false → measureRem env st.seen < fuel →
        (downloadRec env args fuel mod_id st).fuelOut = false) := by
  refine ⟨?_, DlInv_downloadRec env args, fuelOut_downloadRec env args⟩
  intro fuel mod_id st h
  unfold downloadRec
  by_cases hexn : st.exn.isSome = true
  · rw [if_pos hexn]
  · rw [if_neg hexn, if_pos (strContains_iff.mpr h)]

theorem dedup_guard_and_termination_witness :
    downloadRec envCycle argsStd 3 "A" ⟨["A"], [], [], [], none, false⟩
        = ⟨["A"], [], [], [], none, false⟩
    ∧ DlInv (downloadRec envCycle argsStd 3 "A" (initSt []))
    ∧ (downloadRec envCycle argsStd 3 "A" (initSt [])).fuelOut = false := by
  refine ⟨(dedup_guard_and_termination envCycle argsStd).1 3 "A" _ (by decide), ?_, ?_⟩
  · exact (dedup_guard_and_termination envCycle argsStd).2.1 3 "A" (initSt [])
      ⟨List.nodup_nil, by intro d hd; exact absurd hd (List.not_mem_nil d)⟩
  · exact (dedup_guard_and_termination envCycle argsStd).2.2 3 "A" (initSt [])
      (by decide) (by decide)

end MCD
